import Mathlib

/-!
Verification of the question-array utility module.

The `Question` record and the utility functions below are shallow
embeddings of the TypeScript source in
`src/components/CycleHoliday.tsx` (the nutrition/question utilities
part of the file).  TypeScript `number` fields are embedded as `Int`,
arrays as `List`, and the out-of-range indexing that occurs in the
source when a `targetId` is absent is embedded by returning `none`
(`Option`), matching the spec's note that this situation is a fault.
-/

namespace QuestionUtils

inductive QuestionType where
  | multiple_choice_question
  | short_answer_question
deriving DecidableEq, Repr

structure Question where
  id : Int
  name : String
  type : QuestionType
  body : String
  expected : String
  options : List String
  points : Int
  published : Bool
deriving DecidableEq, Repr

/-- Embeds `questions.filter((q) => q.body.length !== 0 || q.expected.length !== 0 || q.options.length !== 0)`. -/
def getNonEmptyQuestions (questions : List Question) : List Question :=
  questions.filter (fun question =>
    question.body.length != 0 ||
    question.expected.length != 0 ||
    question.options.length != 0)

/-- Embeds `questions.find((q) => q.id == id) || null`; a `Question`
object is never falsy in JS, so `|| null` turns only `undefined`
(no match) into `null`, i.e. `Option.none`. -/
def findQuestion (questions : List Question) (id : Int) : Option Question :=
  questions.find? (fun question => question.id == id)

/-- Embeds `questions.filter((q) => q.id != id)`. -/
def removeQuestion (questions : List Question) (id : Int) : List Question :=
  questions.filter (fun question => question.id != id)

/-- Embeds the `forEach` accumulation `total += question.points` starting from 0. -/
def sumPoints (questions : List Question) : Int :=
  questions.foldl (fun total question => total + question.points) 0

/-- Embeds the `forEach` accumulation adding `question.points` only when
`question.published` holds, starting from 0. -/
def sumPublishedPoints (questions : List Question) : Int :=
  questions.foldl
    (fun total question =>
      if question.published then total + question.points else total)
    0

/-- The row a question contributes to the CSV, `"\n" + id + "," + name +
"," + options.length + "," + points + "," + String(published)`. -/
def csvRow (question : Question) : String :=
  "\n" ++ toString question.id ++ "," ++ question.name ++ ","
    ++ toString question.options.length ++ "," ++ toString question.points
    ++ "," ++ (if question.published then "true" else "false")

/-- Embeds the `forEach` accumulation `csv += "\n" + ...` starting from
the header line. -/
def toCSV (questions : List Question) : String :=
  questions.foldl (fun csv question => csv ++ csvRow question)
    "id,name,options,points,published"

/-- Embeds `sameType`: `true` for the empty array, otherwise a
`forEach` over the whole array with a boolean flag that is cleared as
soon as a question's `type` differs from the first question's `type`. -/
def sameType (questions : List Question) : Bool :=
  match questions with
  | [] => true
  | q0 :: rest =>
    (q0 :: rest).foldl
      (fun isSame question =>
        if question.type != q0.type && isSame then false else isSame)
      true

/-- Embeds JS `Array.prototype.findIndex`, with `none` for the JS value `-1`. -/
def findIndex (p : Question → Bool) : List Question → Option Nat
  | [] => none
  | question :: questions =>
    if p question then some 0 else (findIndex p questions).map (· + 1)

/-- Embeds `renameQuestionById`: locate the target index, slice the
array around it and rebuild it with only the `name` field changed. -/
def renameQuestionById (questions : List Question) (targetId : Int)
    (newName : String) : Option (List Question) :=
  match findIndex (fun question => question.id == targetId) questions with
  | none => none
  | some foundQuestion =>
    match questions.get? foundQuestion with
    | none => none
    | some foundQuestionData =>
      some ((questions.take foundQuestion
        ++ [{ foundQuestionData with name := newName }])
        ++ questions.drop (foundQuestion + 1))

/-- Embeds `changeQuestionTypeById`: like `renameQuestionById`, but the
replacement question gets the new `type`, and additionally an empty
`options` list when the old type was `multiple_choice_question` and the
new type differs. -/
def changeQuestionTypeById (questions : List Question) (targetId : Int)
    (newQuestionType : QuestionType) : Option (List Question) :=
  match findIndex (fun question => question.id == targetId) questions with
  | none => none
  | some foundQuestion =>
    match questions.get? foundQuestion with
    | none => none
    | some foundQuestionData =>
      let replaced : Question :=
        if foundQuestionData.type = QuestionType.multiple_choice_question
            ∧ foundQuestionData.type ≠ newQuestionType then
          { foundQuestionData with type := newQuestionType, options := [] }
        else
          { foundQuestionData with type := newQuestionType }
      some ((questions.take foundQuestion ++ [replaced])
        ++ questions.drop (foundQuestion + 1))

/-- Embeds `editOption`: index `-1` appends `newOption` to the target's
options, otherwise the source copies the options array and assigns
`options[targetOptionIndex] = newOption`, which for an in-range index
is `List.set`. -/
def editOption (questions : List Question) (targetId : Int)
    (targetOptionIndex : Int) (newOption : String) : Option (List Question) :=
  match findIndex (fun question => question.id == targetId) questions with
  | none => none
  | some foundQuestion =>
    match questions.get? foundQuestion with
    | none => none
    | some foundQuestionData =>
      let newOptions : List String :=
        if targetOptionIndex == -1 then
          foundQuestionData.options ++ [newOption]
        else
          foundQuestionData.options.set targetOptionIndex.toNat newOption
      some ((questions.take foundQuestion
        ++ [{ foundQuestionData with options := newOptions }])
        ++ questions.drop (foundQuestion + 1))

/-- Modelled from the spec: `duplicateQuestion` is defined in
`objects.ts`, which is not among the provided sources; per the spec the
duplicate carries the supplied new id and is identical to the original
in every other field. -/
def duplicateQuestion (newId : Int) (question : Question) : Question :=
  { question with id := newId }

/-- Embeds `duplicateQuestionInArray`: locate the target index and
rebuild the array with a copy of the original followed by
`duplicateQuestion newId original` in its place. -/
def duplicateQuestionInArray (questions : List Question) (targetId : Int)
    (newId : Int) : Option (List Question) :=
  match findIndex (fun question => question.id == targetId) questions with
  | none => none
  | some foundQuestion =>
    match questions.get? foundQuestion with
    | none => none
    | some foundQuestionData =>
      some ((questions.take foundQuestion
        ++ [foundQuestionData, duplicateQuestion newId foundQuestionData])
        ++ questions.drop (foundQuestion + 1))

/-- Insertion of an element at a given position, used to state the
remove-then-reinsert round trip of the spec. -/
def insertAt (k : Nat) (question : Question) (questions : List Question) :
    List Question :=
  questions.take k ++ question :: questions.drop k

/-- Sample question used to instantiate hypotheses at concrete inputs. -/
def sampleA : Question :=
  { id := 1, name := "Addition", type := QuestionType.short_answer_question,
    body := "", expected := "", options := [], points := 1, published := true }

/-- Second sample question, of the option-bearing type. -/
def sampleB : Question :=
  { id := 2, name := "Colors", type := QuestionType.multiple_choice_question,
    body := "b", expected := "red", options := ["red", "blue"], points := 2,
    published := false }

lemma findIndex_loc (p : Question → Bool) (q : Question) (r : List Question)
    (hq : p q = true) :
    ∀ l : List Question, (∀ x ∈ l, p x = false) →
      findIndex p (l ++ q :: r) = some l.length := by
  intro l
  induction l with
  | nil => intro _; simp [findIndex, hq]
  | cons x l ih =>
    intro hl
    have hx : p x = false := hl x (List.mem_cons_self x l)
    have ih2 := ih fun y hy => hl y (List.mem_cons_of_mem x hy)
    simp [findIndex, hx, ih2]

lemma getElem?_loc (q : Question) (r : List Question) :
    ∀ l : List Question, (l ++ q :: r)[l.length]? = some q
  | [] => by simp
  | x :: l => by
    show (x :: (l ++ q :: r))[l.length + 1]? = some q
    rw [List.getElem?_cons_succ]
    exact getElem?_loc q r l

lemma getElem_loc (q : Question) (r l : List Question)
    (h : l.length < (l ++ q :: r).length) :
    (l ++ q :: r)[l.length] = q := by
  have h2 := getElem?_loc q r l
  rw [List.getElem?_eq_getElem h] at h2
  exact Option.some.inj h2

lemma get?_loc (q : Question) (r : List Question) (l : List Question) :
    (l ++ q :: r).get? l.length = some q := by
  rw [List.get?_eq_getElem?, getElem?_loc]

lemma take_loc (q : Question) (r : List Question) :
    ∀ l : List Question, (l ++ q :: r).take l.length = l := by
  intro l
  induction l with
  | nil => rfl
  | cons x l ih => simp [ih]

lemma drop_loc (q : Question) (r : List Question) :
    ∀ l : List Question, (l ++ q :: r).drop (l.length + 1) = r := by
  intro l
  induction l with
  | nil => rfl
  | cons x l ih => simpa using ih

/-- C5: `renameQuestionById` on an array holding exactly one question
with the target id rewrites only that question's `name`, keeping every
other record and the order intact. -/
theorem renameQuestionById_spec (l r : List Question) (q : Question)
    (targetId : Int) (newName : String)
    (hq : q.id = targetId)
    (hl : ∀ p ∈ l, p.id ≠ targetId) (hr : ∀ p ∈ r, p.id ≠ targetId) :
    renameQuestionById (l ++ q :: r) targetId newName =
      some (l ++ { q with name := newName } :: r) := by
  have hfi : findIndex (fun question => question.id == targetId) (l ++ q :: r)
      = some l.length :=
    findIndex_loc _ q r (by simp [hq]) l fun x hx => by simp [hl x hx]
  simp [renameQuestionById, hfi, getElem?_loc, getElem_loc, take_loc, drop_loc,
    List.length_append]

theorem renameQuestionById_spec_witness :
    renameQuestionById ([sampleA] ++ sampleB :: []) 2 "Hues" =
      some ([sampleA] ++ { sampleB with name := "Hues" } :: []) :=
  renameQuestionById_spec [sampleA] [] sampleB 2 "Hues" rfl (by decide)
    (by decide)

/-- C3: `changeQuestionTypeById` on an array holding exactly one
question with the target id rewrites only that question's `type`, and
clears its `options` exactly when the old type was
`multiple_choice_question` and the new type differs. -/
theorem changeQuestionTypeById_spec (l r : List Question) (q : Question)
    (targetId : Int) (newQuestionType : QuestionType)
    (hq : q.id = targetId)
    (hl : ∀ p ∈ l, p.id ≠ targetId) (hr : ∀ p ∈ r, p.id ≠ targetId) :
    changeQuestionTypeById (l ++ q :: r) targetId newQuestionType =
      some (l ++
        (if q.type = QuestionType.multiple_choice_question
            ∧ q.type ≠ newQuestionType then
          { q with type := newQuestionType, options := [] }
        else
          { q with type := newQuestionType }) :: r) := by
  have hfi : findIndex (fun question => question.id == targetId) (l ++ q :: r)
      = some l.length :=
    findIndex_loc _ q r (by simp [hq]) l fun x hx => by simp [hl x hx]
  simp [changeQuestionTypeById, hfi, getElem?_loc, getElem_loc, take_loc,
    drop_loc, List.length_append]

theorem changeQuestionTypeById_spec_witness :
    changeQuestionTypeById ([] ++ sampleB :: [sampleA]) 2
        QuestionType.short_answer_question =
      some ([] ++
        (if sampleB.type = QuestionType.multiple_choice_question
            ∧ sampleB.type ≠ QuestionType.short_answer_question then
          { sampleB with
            type := QuestionType.short_answer_question
            options := [] }
        else
          { sampleB with type := QuestionType.short_answer_question })
        :: [sampleA]) :=
  changeQuestionTypeById_spec [] [sampleA] sampleB 2
    QuestionType.short_answer_question rfl (by decide) (by decide)

/-- C2: `duplicateQuestionInArray` on an array holding exactly one
question with the target id inserts, directly after that question, a
copy differing from it only in the `id` field (now `newId`), keeping
every other record and the order intact; the length grows by one. -/
theorem duplicateQuestionInArray_spec (l r : List Question) (q : Question)
    (targetId newId : Int)
    (hq : q.id = targetId)
    (hl : ∀ p ∈ l, p.id ≠ targetId) (hr : ∀ p ∈ r, p.id ≠ targetId) :
    duplicateQuestionInArray (l ++ q :: r) targetId newId =
      some (l ++ q :: { q with id := newId } :: r) ∧
    (l ++ q :: { q with id := newId } :: r).length
      = (l ++ q :: r).length + 1 := by
  have hfi : findIndex (fun question => question.id == targetId) (l ++ q :: r)
      = some l.length :=
    findIndex_loc _ q r (by simp [hq]) l fun x hx => by simp [hl x hx]
  constructor
  · simp [duplicateQuestionInArray, hfi, getElem?_loc, getElem_loc, take_loc,
      drop_loc, List.length_append, duplicateQuestion]
  · simp [List.length_append]
    omega

theorem duplicateQuestionInArray_spec_witness :
    duplicateQuestionInArray ([sampleA] ++ sampleB :: []) 2 7 =
      some ([sampleA] ++ sampleB :: { sampleB with id := 7 } :: []) ∧
    ([sampleA] ++ sampleB :: { sampleB with id := 7 } :: []).length
      = ([sampleA] ++ sampleB :: []).length + 1 :=
  duplicateQuestionInArray_spec [sampleA] [] sampleB 2 7 rfl (by decide)
    (by decide)

/-- C4: `editOption` on an array holding exactly one question with the
target id: index `-1` appends `newOption` to that question's options;
an in-range index `i` replaces exactly the option at `i`, leaving every
other option entry, every other field, and every other question
unchanged, with order preserved. -/
theorem editOption_spec (l r : List Question) (q : Question)
    (targetId : Int) (newOption : String)
    (hq : q.id = targetId)
    (hl : ∀ p ∈ l, p.id ≠ targetId) (hr : ∀ p ∈ r, p.id ≠ targetId) :
    editOption (l ++ q :: r) targetId (-1) newOption =
      some (l ++ { q with options := q.options ++ [newOption] } :: r) ∧
    ∀ i : Nat, i < q.options.length →
      editOption (l ++ q :: r) targetId (Int.ofNat i) newOption =
        some (l ++ { q with options := q.options.set i newOption } :: r) ∧
      (q.options.set i newOption).length = q.options.length ∧
      (q.options.set i newOption)[i]? = some newOption ∧
      ∀ j : Nat, j ≠ i → (q.options.set i newOption)[j]? = q.options[j]? := by
  have hfi : findIndex (fun question => question.id == targetId) (l ++ q :: r)
      = some l.length :=
    findIndex_loc _ q r (by simp [hq]) l fun x hx => by simp [hl x hx]
  refine ⟨?_, ?_⟩
  · simp [editOption, hfi, getElem?_loc, getElem_loc, take_loc, drop_loc,
      List.length_append]
  · intro i hi
    have hne : ((Int.ofNat i) == -1) = false := by
      simp [beq_eq_false_iff_ne]
    refine ⟨?_, List.length_set .., ?_, ?_⟩
    · simp [editOption, hfi, getElem?_loc, getElem_loc, take_loc, drop_loc,
        List.length_append, hne, Int.toNat_ofNat]
    · rw [List.getElem?_set_self]
      simp [hi]
    · intro j hj
      rw [List.getElem?_set_ne (Ne.symm hj)]

theorem editOption_spec_witness :
    editOption ([sampleA] ++ sampleB :: []) 2 (-1) "green" =
      some ([sampleA]
        ++ { sampleB with options := sampleB.options ++ ["green"] } :: []) ∧
    editOption ([sampleA] ++ sampleB :: []) 2 (Int.ofNat 0) "green" =
      some ([sampleA]
        ++ { sampleB with options := sampleB.options.set 0 "green" } :: []) :=
  ⟨(editOption_spec [sampleA] [] sampleB 2 "green" rfl (by decide)
      (by decide)).1,
   ((editOption_spec [sampleA] [] sampleB 2 "green" rfl (by decide)
      (by decide)).2 0 (by decide)).1⟩

lemma take_len_append (l r : List Question) : (l ++ r).take l.length = l := by
  induction l with
  | nil => rfl
  | cons x l ih => simp [ih]

lemma drop_len_append (l r : List Question) : (l ++ r).drop l.length = r := by
  induction l with
  | nil => rfl
  | cons x l ih => simpa using ih

/-- C6: on an array with pairwise distinct ids, removing the question
at position `k` with `removeQuestion` and re-inserting it at position
`k` reconstructs the original array exactly. -/
theorem removeQuestion_insertAt_roundtrip (l r : List Question)
    (q : Question)
    (h : (l ++ q :: r).Pairwise (fun a b => a.id ≠ b.id)) :
    insertAt l.length q (removeQuestion (l ++ q :: r) q.id) = l ++ q :: r := by
  obtain ⟨hpl, hpqr, hcross⟩ := List.pairwise_append.mp h
  have hql : ∀ x ∈ l, x.id ≠ q.id := fun x hx =>
    hcross x hx q (List.mem_cons_self q r)
  have hqr : ∀ x ∈ r, q.id ≠ x.id := (List.pairwise_cons.mp hpqr).1
  have h1 : removeQuestion (l ++ q :: r) q.id = l ++ r := by
    unfold removeQuestion
    rw [List.filter_append]
    have e1 : l.filter (fun question => question.id != q.id) = l :=
      List.filter_eq_self.mpr fun x hx => bne_iff_ne.mpr (hql x hx)
    have e2 : (q :: r).filter (fun question => question.id != q.id) = r := by
      have hself : (q.id != q.id) = false := by simp
      have e3 : r.filter (fun question => question.id != q.id) = r :=
        List.filter_eq_self.mpr fun x hx =>
          bne_iff_ne.mpr (Ne.symm (hqr x hx))
      simp [List.filter_cons, hself, e3]
    rw [e1, e2]
  rw [h1]
  unfold insertAt
  rw [take_len_append, drop_len_append]

theorem removeQuestion_insertAt_roundtrip_witness :
    insertAt [sampleA].length sampleB
        (removeQuestion ([sampleA] ++ sampleB :: []) sampleB.id) =
      [sampleA] ++ sampleB :: [] :=
  removeQuestion_insertAt_roundtrip [sampleA] [] sampleB (by decide)

lemma sumPoints_eq (questions : List Question) :
    sumPoints questions = (questions.map Question.points).sum := by
  have h : ∀ (qs : List Question) (a : Int),
      qs.foldl (fun total question => total + question.points) a
        = a + (qs.map Question.points).sum := by
    intro qs
    induction qs with
    | nil => intro a; simp
    | cons x qs ih =>
      intro a
      simp [ih]
      ring
  simpa using h questions 0

lemma sumPublishedPoints_eq (questions : List Question) :
    sumPublishedPoints questions
      = ((questions.filter fun q => q.published).map Question.points).sum := by
  have h : ∀ (qs : List Question) (a : Int),
      qs.foldl
        (fun total question =>
          if question.published then total + question.points else total) a
        = a + ((qs.filter fun q => q.published).map Question.points).sum := by
    intro qs
    induction qs with
    | nil => intro a; simp
    | cons x qs ih =>
      intro a
      by_cases hx : x.published = true <;>
        simp [List.filter_cons, hx, ih] <;> ring
  simpa using h questions 0

lemma sumPoints_cons (q : Question) (qs : List Question) :
    sumPoints (q :: qs) = q.points + sumPoints qs := by
  rw [sumPoints_eq, sumPoints_eq, List.map_cons, List.sum_cons]

lemma sumPublishedPoints_cons (q : Question) (qs : List Question) :
    sumPublishedPoints (q :: qs)
      = (if q.published then q.points else 0) + sumPublishedPoints qs := by
  rw [sumPublishedPoints_eq, sumPublishedPoints_eq, List.filter_cons]
  by_cases hq : q.published = true <;> simp [hq]

/-- An unpublished question with zero points: a counterexample to the
unqualified equality condition of the sum claim. -/
def unpublishedZero : Question :=
  { id := 3, name := "Zero", type := QuestionType.short_answer_question,
    body := "", expected := "", options := [], points := 0,
    published := false }

/-- An unpublished question with negative points: a counterexample to
the unqualified inequality of the sum claim. -/
def unpublishedNegative : Question :=
  { id := 4, name := "Neg", type := QuestionType.short_answer_question,
    body := "", expected := "", options := [], points := -1,
    published := false }

/-- C1 counterexample: over arbitrary integer points the claim fails:
with a single unpublished question of points `-1` the inequality
`sumPublishedPoints ≤ sumPoints` is false, and with a single
unpublished question of points `0` the two sums are equal although not
every question is published. -/
theorem sumPublishedPoints_claim_counterexample :
    ¬ (sumPublishedPoints [unpublishedNegative]
        ≤ sumPoints [unpublishedNegative]) ∧
    ¬ (sumPublishedPoints [unpublishedZero] = sumPoints [unpublishedZero] →
        ∀ q ∈ [unpublishedZero], q.published = true) := by
  decide

/-- C1 (amended): for arrays in which every question carries strictly
positive points, `sumPublishedPoints` is at most `sumPoints`, with
equality exactly when every question is published. -/
theorem sumPublishedPoints_le_sumPoints (questions : List Question)
    (hpos : ∀ q ∈ questions, 0 < q.points) :
    sumPublishedPoints questions ≤ sumPoints questions ∧
    (sumPublishedPoints questions = sumPoints questions ↔
      ∀ q ∈ questions, q.published = true) := by
  induction questions with
  | nil => simp [sumPoints, sumPublishedPoints]
  | cons x qs ih =>
    have hx : (0 : Int) < x.points := hpos x (List.mem_cons_self x qs)
    obtain ⟨ih1, ih2⟩ := ih fun q hq => hpos q (List.mem_cons_of_mem x hq)
    rw [sumPoints_cons, sumPublishedPoints_cons]
    by_cases hpub : x.published = true
    · rw [if_pos hpub, List.forall_mem_cons]
      constructor
      · linarith
      · constructor
        · intro he
          exact ⟨hpub, ih2.mp (by linarith)⟩
        · rintro ⟨-, hall⟩
          have := ih2.mpr hall
          linarith
    · rw [if_neg hpub, List.forall_mem_cons]
      constructor
      · linarith
      · constructor
        · intro he
          exfalso
          linarith
        · rintro ⟨hpx, -⟩
          exact absurd hpx hpub

theorem sumPublishedPoints_le_sumPoints_witness :
    sumPublishedPoints [sampleA, sampleB] ≤ sumPoints [sampleA, sampleB] ∧
    (sumPublishedPoints [sampleA, sampleB] = sumPoints [sampleA, sampleB] ↔
      ∀ q ∈ [sampleA, sampleB], q.published = true) :=
  sumPublishedPoints_le_sumPoints [sampleA, sampleB] (by decide)

lemma find?_loc (p : Question → Bool) (q : Question) (r : List Question)
    (hq : p q = true) :
    ∀ l : List Question, (∀ x ∈ l, p x = false) →
      (l ++ q :: r).find? p = some q := by
  intro l
  induction l with
  | nil => intro _; simp [List.find?_cons, hq]
  | cons x l ih =>
    intro hl
    have hx : p x = false := hl x (List.mem_cons_self x l)
    rw [List.cons_append, List.find?_cons_of_neg _ (by simp [hx])]
    exact ih fun y hy => hl y (List.mem_cons_of_mem x hy)

/-- C8: `findQuestion` returns `none` when no question carries the
requested id, and the first question carrying it otherwise. -/
theorem findQuestion_spec (questions : List Question) (i : Int) :
    ((∀ q ∈ questions, q.id ≠ i) → findQuestion questions i = none) ∧
    ∀ l q r, questions = l ++ q :: r → q.id = i →
      (∀ p ∈ l, p.id ≠ i) → findQuestion questions i = some q := by
  constructor
  · intro h
    exact List.find?_eq_none.mpr fun x hx => by simp [h x hx]
  · rintro l q r rfl hq hl
    exact find?_loc _ q r (by simp [hq]) l fun x hx => by simp [hl x hx]

theorem findQuestion_spec_witness :
    findQuestion [sampleA] 5 = none ∧
    findQuestion [sampleA, sampleB] 2 = some sampleB :=
  ⟨(findQuestion_spec [sampleA] 5).1 (by decide),
   (findQuestion_spec [sampleA, sampleB] 2).2 [sampleA] sampleB [] rfl rfl
     (by decide)⟩

lemma sameType_fold (t : QuestionType) :
    ∀ (qs : List Question) (b : Bool),
      qs.foldl
        (fun isSame question =>
          if question.type != t && isSame then false else isSame) b
        = (b && qs.all fun question => question.type == t) := by
  intro qs
  induction qs with
  | nil => intro b; simp
  | cons x qs ih =>
    intro b
    rw [List.foldl_cons, ih, List.all_cons]
    cases b <;> cases hxt : (x.type == t) <;> simp [bne, hxt]

/-- C9: `sameType` is true exactly when all questions share one `type`;
it is true on the empty array and on every single-element array. -/
theorem sameType_spec (questions : List Question) :
    (sameType questions = true ↔
      ∀ p ∈ questions, ∀ q ∈ questions, p.type = q.type) ∧
    sameType ([] : List Question) = true ∧
    ∀ q : Question, sameType [q] = true := by
  refine ⟨?_, rfl, fun q => by simp [sameType, sameType_fold]⟩
  cases questions with
  | nil => simp [sameType]
  | cons q0 rest =>
    have e : sameType (q0 :: rest)
        = ((q0 :: rest).all fun question => question.type == q0.type) := by
      show (q0 :: rest).foldl
          (fun isSame question =>
            if question.type != q0.type && isSame then false else isSame)
          true
        = (q0 :: rest).all fun question => question.type == q0.type
      rw [sameType_fold]
      simp
    rw [e, List.all_eq_true]
    constructor
    · intro h p hp q hq
      have hp2 := h p hp
      have hq2 := h q hq
      simp only [beq_iff_eq] at hp2 hq2
      rw [hp2, hq2]
    · intro h x hx
      simp [h x hx q0 (List.mem_cons_self q0 rest)]

theorem sameType_spec_witness :
    sameType [sampleA, sampleA] = true :=
  (sameType_spec [sampleA, sampleA]).1.mpr (by decide)

lemma length_eq_zero_iff_str (s : String) : s.length = 0 ↔ s = "" := by
  constructor
  · intro h
    have hd : s.data = [] := List.length_eq_zero.mp h
    exact String.ext_iff.mpr (by simpa using hd)
  · intro h
    simp [h]

/-- C10: `getNonEmptyQuestions` keeps exactly the questions with a
non-empty `body`, a non-empty `expected`, or a non-empty `options`
list — i.e. drops a question only when all three are empty — and keeps
the survivors in their original relative order. -/
theorem getNonEmptyQuestions_spec (questions : List Question) :
    getNonEmptyQuestions questions =
      questions.filter
        (fun q => decide ¬(q.body = "" ∧ q.expected = "" ∧ q.options = [])) ∧
    (getNonEmptyQuestions questions).Sublist questions := by
  constructor
  · unfold getNonEmptyQuestions
    congr 1
    funext q
    rw [Bool.eq_iff_iff]
    simp [bne_iff_ne, length_eq_zero_iff_str, List.length_eq_zero]
    tauto
  · exact List.filter_sublist _

lemma string_foldl_append :
    ∀ (l : List String) (s : String),
      l.foldl (· ++ ·) s = s ++ l.foldl (· ++ ·) "" := by
  intro l
  induction l with
  | nil => intro s; simp
  | cons x l ih =>
    intro s
    rw [List.foldl_cons, List.foldl_cons, ih (s ++ x), ih ("" ++ x)]
    simp [String.append_assoc]

lemma toCSV_join (questions : List Question) :
    toCSV questions
      = "id,name,options,points,published"
        ++ String.join (questions.map csvRow) := by
  unfold toCSV
  rw [← List.foldl_map, string_foldl_append]
  rfl

/-- C7: `toCSV` is the literal header line followed, in input order, by
one `"\n"`-prefixed row per question holding id, name, option count,
points and the literal text `true`/`false`, comma-separated; on the
empty array it is the header alone, and on the single question
`{id 1, name "Addition", no options, 1 point, published}` it is the
exact two-line text of the spec. -/
theorem toCSV_spec (questions : List Question) :
    toCSV questions
      = "id,name,options,points,published"
        ++ String.join (questions.map csvRow) ∧
    toCSV ([] : List Question) = "id,name,options,points,published" ∧
    toCSV [sampleA]
      = "id,name,options,points,published\n1,Addition,0,1,true" := by
  refine ⟨toCSV_join questions, rfl, ?_⟩
  decide

end QuestionUtils
